import Mathlib

/-!
Shallow embedding of the qwen-proxy credential / routing core
(src/accounts/manager.js and src/auth/oauth.js) and proofs about it.

Modelling conventions:
* JS strings are `List Char` (abbrev `Str`); `undefined`/absent string
  fields are `Option Str`.  JS truthiness for strings (`undefined`, `null`
  and `""` are falsy) is `strTruthy`.
* JS numbers on the store side are `Int` (every value the store code
  computes with is an integer: epoch-ms timestamps and counters); absent
  numeric fields are `Option Int`, with truthiness `numTruthy`
  (`undefined`/`null`/`0` falsy).  The device-auth polling loop is the one
  place fractional numbers arise (interval * 1.5); it is modelled over ℚ.
* `Date.now()` is passed in explicitly as a `now` argument.
* File I/O (loadAccounts/saveAccounts) is replaced by explicit
  `AccountStore` state passing; a mutation that saves returns the new
  store, a mutation that throws before saving returns an error without a
  store.
* JS objects with string keys preserve insertion order, so the `accounts`
  object is an insertion-ordered association list `List (Str × Account)`.
-/

namespace QwenProxy

abbrev Str := List Char

/-- JS string truthiness: undefined/null and the empty string are falsy. -/
def strTruthy : Option Str → Bool
  | none => false
  | some s => !s.isEmpty

/-- JS number truthiness: undefined/null and 0 are falsy. -/
def numTruthy : Option Int → Bool
  | none => false
  | some n => n != 0

/-- JS `a || b` for an optional string `a` and string default `b`. -/
def jsOrStr (a : Option Str) (b : Str) : Str :=
  if strTruthy a then a.getD [] else b

/-- JS template interpolation of a possibly-undefined string value. -/
def optStr : Option Str → Str
  | none => ('u' :: 'n' :: 'd' :: 'e' :: 'f' :: 'i' :: 'n' :: 'e' :: 'd' :: [])
  | some s => s

/-- JS `String.prototype.startsWith`. -/
def strStartsWith : Str → Str → Bool
  | _, [] => true
  | [], _ :: _ => false
  | c :: cs, p :: ps => c == p && strStartsWith cs ps

/-- JS `String.prototype.includes` (substring test). -/
def strIncludes : Str → Str → Bool
  | s, pat =>
    match s with
    | [] => strStartsWith [] pat
    | _ :: rest => strStartsWith s pat || strIncludes rest pat

/-- JS `String.prototype.endsWith`. -/
def strEndsWith (s pat : Str) : Bool :=
  strStartsWith s.reverse pat.reverse

/-- whitespace characters removed by JS `String.prototype.trim`. -/
def isJsWhitespace (c : Char) : Bool :=
  c == ' ' || c == '\t' || c == '\n' || c == '\r'

/-- JS `String.prototype.trim`. -/
def strTrim (s : Str) : Str :=
  ((s.dropWhile isJsWhitespace).reverse.dropWhile isJsWhitespace).reverse

/-- JS `String.prototype.toLowerCase`. -/
def jsToLower (s : Str) : Str :=
  s.map Char.toLower

/-- Credentials record (manager.js / oauth.js): camelCase shape stored on
an account. -/
structure Credentials where
  accessToken : Option Str
  tokenType : Str
  refreshToken : Option Str
  resourceUrl : Option Str
  expiryDate : Option Int
  scope : Option Str
deriving DecidableEq, Repr

/-- TOKEN_REFRESH_BUFFER_MS = 30 * 1000 (manager.js line 20, oauth.js
line 21). -/
def TOKEN_REFRESH_BUFFER_MS : Int := 30 * 1000

/-- manager.js `isTokenValid(credentials)`: false when `expiryDate` or
`accessToken` is falsy, else `Date.now() < expiryDate - buffer`. -/
def isTokenValid (c : Credentials) (now : Int) : Bool :=
  if !numTruthy c.expiryDate || !strTruthy c.accessToken then
    false
  else
    decide (now < c.expiryDate.getD 0 - TOKEN_REFRESH_BUFFER_MS)

/-- oauth.js `isCredentialsExpired(credentials)`: false when `expiryDate`
is falsy, else `Date.now() > expiryDate - buffer`. -/
def isCredentialsExpired (c : Credentials) (now : Int) : Bool :=
  if !numTruthy c.expiryDate then
    false
  else
    decide (now > c.expiryDate.getD 0 - TOKEN_REFRESH_BUFFER_MS)

/-- API_ENDPOINTS.dashscope (manager.js line 33). -/
def apiDashscope : Str := "https://dashscope.aliyuncs.com/compatible-mode/v1".data

/-- API_ENDPOINTS.dashscopeIntl (manager.js line 34). -/
def apiDashscopeIntl : Str := "https://dashscope-intl.aliyuncs.com/compatible-mode/v1".data

/-- API_ENDPOINTS.portal (manager.js line 35). -/
def apiPortal : Str := "https://portal.qwen.ai/v1".data

/-- manager.js `resolveBaseUrl(resourceUrl)`. -/
def resolveBaseUrl (resourceUrl : Option Str) : Str :=
  if !strTruthy resourceUrl then apiDashscope
  else
    let r := resourceUrl.getD []
    let normalized := strTrim (jsToLower r)
    if strIncludes normalized ("portal.qwen.ai".data) then apiPortal
    else if strIncludes normalized ("dashscope-intl".data) then apiDashscopeIntl
    else if strIncludes normalized ("dashscope".data) then apiDashscope
    else if strStartsWith normalized ("http://".data) || strStartsWith normalized ("https://".data) then
      if strEndsWith r ("/v1".data) then r else r ++ ("/v1".data)
    else apiDashscope

/-- Header set built by manager.js `buildHeaders`: the two always-present
headers plus the three optional DashScope vendor headers. -/
structure Headers where
  authorization : Str
  contentType : Str
  dashscopeCacheControl : Option Str
  dashscopeUserAgent : Option Str
  dashscopeAuthType : Option Str
deriving DecidableEq, Repr

/-- manager.js `buildHeaders(credentials)`: Authorization is the literal
`Bearer ` followed by the access token; the vendor headers are added when
the lowercased resourceUrl contains `dashscope` or is empty/absent. -/
def buildHeaders (c : Credentials) : Headers :=
  let resourceUrl := jsToLower (c.resourceUrl.getD [])
  let isDashScope := strIncludes resourceUrl ("dashscope".data) || resourceUrl.isEmpty
  { authorization := ("Bearer ".data) ++ optStr c.accessToken
    contentType := "application/json".data
    dashscopeCacheControl := if isDashScope then some ("enable".data) else none
    dashscopeUserAgent := if isDashScope then some ("qwen-proxy/1.1.0".data) else none
    dashscopeAuthType := if isDashScope then some ("qwen-oauth".data) else none }

/-- Account record (manager.js addAccount shape). -/
structure Account where
  id : Str
  name : Str
  credentials : Credentials
  createdAt : Int
  lastUsed : Option Int
  requestCount : Int
  enabled : Bool
deriving DecidableEq, Repr

/-- Persisted root `{accounts, defaultAccountId}`.  The `accounts` JS
object keeps string keys in insertion order, so it is an ordered
association list. -/
structure AccountStore where
  accounts : List (Str × Account)
  defaultAccountId : Option Str
deriving DecidableEq, Repr

/-- JS `data.accounts[accountId]` lookup (undefined when absent). -/
def lookupAccount (s : AccountStore) (accountId : Str) : Option Account :=
  (s.accounts.find? (fun p => p.1 == accountId)).map (fun p => p.2)

/-- JS `data.accounts[accountId] = account`: overwrite in place when the
key exists, append otherwise. -/
def objSet : List (Str × Account) → Str → Account → List (Str × Account)
  | [], k, v => [(k, v)]
  | p :: rest, k, v =>
    if p.1 == k then (k, v) :: rest else p :: objSet rest k v

/-- the message of `new Error(`Account not found: ${accountId}`)`. -/
def accountNotFoundMsg (accountId : Str) : Str :=
  ("Account not found: ".data) ++ accountId

/-- the account object manager.js `addAccount` constructs before storing
it. -/
def newAccountRecord (s : AccountStore) (newId : Str) (name : Option Str)
    (credentials : Credentials) (now : Int) : Account :=
  { id := newId
    name := jsOrStr name (("account-".data) ++ (Nat.repr (s.accounts.length + 1)).data)
    credentials :=
      { accessToken := credentials.accessToken
        tokenType := jsOrStr (some credentials.tokenType) ("Bearer".data)
        refreshToken := credentials.refreshToken
        resourceUrl := credentials.resourceUrl
        expiryDate := credentials.expiryDate
        scope := credentials.scope }
    createdAt := now
    lastUsed := none
    requestCount := 0
    enabled := true }

/-- manager.js `addAccount(name, credentials)`.  `newId` stands for the
generated `randomUUID()`; `now` for `Date.now()`.  Returns the saved store
and the returned account id. -/
def addAccount (s : AccountStore) (newId : Str) (name : Option Str)
    (credentials : Credentials) (now : Int) : AccountStore × Str :=
  let account : Account := newAccountRecord s newId name credentials now
  let s1 : AccountStore := { s with accounts := objSet s.accounts newId account }
  let s2 : AccountStore :=
    if !strTruthy s1.defaultAccountId then { s1 with defaultAccountId := some newId } else s1
  (s2, newId)

/-- manager.js `removeAccount(accountId)`: throws before saving when the
account is absent; otherwise deletes it, reassigns `defaultAccountId` to
the first remaining key (or null) when the default was removed, saves, and
returns the removed account name. -/
def removeAccount (s : AccountStore) (accountId : Str) :
    Except Str (AccountStore × Str) :=
  match lookupAccount s accountId with
  | none => .error (accountNotFoundMsg accountId)
  | some account =>
    let accounts2 := s.accounts.filter (fun p => !(p.1 == accountId))
    let newDefault :=
      if s.defaultAccountId == some accountId then
        (accounts2.head?).map (fun p => p.1)
      else s.defaultAccountId
    .ok ({ accounts := accounts2, defaultAccountId := newDefault }, account.name)

/-- manager.js `getDefaultAccount()`. -/
def getDefaultAccount (s : AccountStore) : Option Account :=
  if !strTruthy s.defaultAccountId then none
  else lookupAccount s (s.defaultAccountId.getD [])

/-- manager.js `setDefaultAccount(accountId)`: throws before saving when
absent. -/
def setDefaultAccount (s : AccountStore) (accountId : Str) :
    Except Str AccountStore :=
  if (lookupAccount s accountId).isNone then .error (accountNotFoundMsg accountId)
  else .ok { s with defaultAccountId := some accountId }

/-- manager.js `toggleAccount(accountId, enabled)`: throws before saving
when absent. -/
def toggleAccount (s : AccountStore) (accountId : Str) (enabled : Bool) :
    Except Str AccountStore :=
  if (lookupAccount s accountId).isNone then .error (accountNotFoundMsg accountId)
  else
    .ok { s with accounts := s.accounts.map (fun p =>
      if p.1 == accountId then (p.1, { p.2 with enabled := enabled }) else p) }

/-- manager.js `updateCredentials(accountId, credentials)`: throws before
saving when absent; otherwise merges `{...old, ...new}`.  In
getValidCredentials the incoming object carries every credentials key, so
the spread amounts to replacement; we model that call shape. -/
def updateCredentials (s : AccountStore) (accountId : Str)
    (credentials : Credentials) : Except Str AccountStore :=
  if (lookupAccount s accountId).isNone then .error (accountNotFoundMsg accountId)
  else
    .ok { s with accounts := s.accounts.map (fun p =>
      if p.1 == accountId then (p.1, { p.2 with credentials := credentials }) else p) }

/-- manager.js `updateAccountStats(accountId)`: returns without saving
when the account is absent (`none`); otherwise sets `lastUsed = now`,
increments `requestCount` and saves. -/
def updateAccountStats (s : AccountStore) (accountId : Str) (now : Int) :
    Option AccountStore :=
  if (lookupAccount s accountId).isNone then none
  else
    some { s with accounts := s.accounts.map (fun p =>
      if p.1 == accountId then
        (p.1, { p.2 with lastUsed := some now, requestCount := p.2.requestCount + 1 })
      else p) }

/-- snake_case token-endpoint response body (oauth.js / manager.js). -/
structure TokenResponse where
  access_token : Option Str
  token_type : Option Str
  refresh_token : Option Str
  resource_url : Option Str
  expires_in : Int
  scope : Option Str
deriving DecidableEq, Repr

/-- oauth.js `tokenResponseToCredentials(tokenResponse)` at
`Date.now() = now`. -/
def tokenResponseToCredentials (t : TokenResponse) (now : Int) : Credentials :=
  { accessToken := t.access_token
    tokenType := jsOrStr t.token_type ("Bearer".data)
    refreshToken := t.refresh_token
    resourceUrl := t.resource_url
    expiryDate := some (now + t.expires_in * 1000)
    scope := t.scope }

/-- the success path of `refreshAccessToken(refreshToken)` (identical in
oauth.js lines 178-185 and manager.js lines 346-353) applied to the
provider response `data`: note `refreshToken: data.refresh_token ||
refreshToken` keeps the old token when the response omits one. -/
def refreshAccessToken (data : TokenResponse) (refreshToken : Str)
    (now : Int) : Credentials :=
  { accessToken := data.access_token
    tokenType := jsOrStr data.token_type ("Bearer".data)
    refreshToken := some (jsOrStr data.refresh_token refreshToken)
    resourceUrl := data.resource_url
    expiryDate := some (now + data.expires_in * 1000)
    scope := data.scope }

/-- the distinct failure exits of manager.js `getValidCredentials`. -/
inductive CredError where
  | notFound
  | disabled
  | expiredNoRefreshToken
  | refreshFailed
deriving DecidableEq, Repr

/-- manager.js `getValidCredentials(accountId)`.  The network exchange of
`refreshAccessToken` is abstracted by `refreshResp`: `.ok data` is the
parsed 2xx response body, `.error e` a non-2xx/thrown exchange.  On a
refresh, the fresh credentials are persisted through `updateCredentials`
and also returned. -/
def getValidCredentials (s : AccountStore) (accountId : Str)
    (refreshResp : Except Str TokenResponse) (now : Int) :
    Except CredError (AccountStore × Credentials) :=
  match lookupAccount s accountId with
  | none => .error .notFound
  | some account =>
    if !account.enabled then .error .disabled
    else if isTokenValid account.credentials now then .ok (s, account.credentials)
    else if !strTruthy account.credentials.refreshToken then
      .error .expiredNoRefreshToken
    else
      match refreshResp with
      | .error _ => .error .refreshFailed
      | .ok data =>
        let fresh := refreshAccessToken data (account.credentials.refreshToken.getD []) now
        match updateCredentials s accountId fresh with
        | .error _ => .error .refreshFailed
        | .ok s2 => .ok (s2, fresh)

/-- the sort key of manager.js line 435: `(a.lastUsed || 0)`. -/
def usageKey (a : Account) : Int :=
  a.lastUsed.getD 0

/-- head of the stable sort by `(a.lastUsed||0) - (b.lastUsed||0)`
(manager.js lines 435-436): the first element attaining the minimal key.
`Array.prototype.sort` is stable, so `sorted[0]` is exactly the earliest
minimal element. -/
def selectOldest : List Account → Option Account
  | [] => none
  | a :: rest =>
    match selectOldest rest with
    | none => some a
    | some b => if usageKey b < usageKey a then some b else some a

/-- the `enabledAccounts` list of manager.js getNextAvailableAccount:
accounts that are enabled and hold a currently valid token. -/
def enabledValidAccounts (s : AccountStore) (now : Int) : List Account :=
  (s.accounts.map (fun p => p.2)).filter
    (fun a => a.enabled && isTokenValid a.credentials now)

/-- the `refreshableAccounts` list of manager.js getNextAvailableAccount:
enabled accounts holding a (truthy) refresh token. -/
def refreshableAccounts (s : AccountStore) : List Account :=
  (s.accounts.map (fun p => p.2)).filter
    (fun a => a.enabled && strTruthy a.credentials.refreshToken)

/-- manager.js `getNextAvailableAccount()`. -/
def getNextAvailableAccount (s : AccountStore) (now : Int) : Option Account :=
  if (enabledValidAccounts s now).isEmpty then
    (refreshableAccounts s).head?
  else
    selectOldest (enabledValidAccounts s now)

/-- manager.js `getAccountForRequest(strategy)`: the switch sends
`round-robin` and `load-balance` to `getNextAvailableAccount` and
everything else (including `default`) to `getDefaultAccount`. -/
def getAccountForRequest (s : AccountStore) (now : Int) (strategy : Str) :
    Option Account :=
  if strategy == ("round-robin".data) || strategy == ("load-balance".data) then
    getNextAvailableAccount s now
  else
    getDefaultAccount s

/-- the fields of the device-authorization response used by
`performDeviceAuthFlow` (oauth.js). -/
structure DeviceAuth where
  device_code : Str
  user_code : Str
  verification_uri_complete : Str
deriving DecidableEq, Repr

/-- what one `pollDeviceToken` call does, as observed by the loop of
`performDeviceAuthFlow`: returns null (authorization_pending), throws
`SlowDownError`, returns a token response, or throws another error. -/
inductive PollOutcome where
  | pending
  | slowDown
  | token (t : TokenResponse)
  | failure (msg : Str)
deriving DecidableEq, Repr

/-- observable events of a `performDeviceAuthFlow` run: the single
`onVerificationUrl(url, userCode)` callback, each `setTimeout` sleep with
its duration, and each poll.  Durations are ℚ because JS multiplies the
interval by 1.5. -/
inductive FlowEvent where
  | verificationUrl (url : Str) (userCode : Str)
  | sleep (ms : ℚ)
  | poll
deriving DecidableEq, Repr

/-- how a `performDeviceAuthFlow` run ends.  `success t e` means the poll
at elapsed time `e` returned token response `t`; the JS then returns
`tokenResponseToCredentials(t)` evaluated at `Date.now() = startTime + e`.
`scriptExhausted` is a model artifact: the supplied outcome script ended
while the loop would still poll. -/
inductive FlowResult where
  | success (t : TokenResponse) (elapsedAtReceipt : ℚ)
  | timeout
  | failure (msg : Str)
  | scriptExhausted
deriving DecidableEq, Repr

/-- the `while (Date.now() - startTime < timeoutMs)` polling loop of
oauth.js `performDeviceAuthFlow`, driven by a script of poll outcomes.
`elapsed` is `Date.now() - startTime`; each iteration sleeps `interval`
ms then polls (network time of the poll itself is taken as 0); a
`SlowDownError` sets `interval = Math.min(interval * 1.5, 10000)` and
continues; any other thrown error propagates; exiting the loop throws the
`Device authorization timeout` error. -/
def runDeviceAuthLoop (timeoutMs : ℚ) :
    List PollOutcome → ℚ → ℚ → List FlowEvent × FlowResult
  | script, interval, elapsed =>
    if elapsed < timeoutMs then
      match script with
      | [] => ([], .scriptExhausted)
      | outcome :: rest =>
        match outcome with
        | .pending =>
          let r := runDeviceAuthLoop timeoutMs rest interval (elapsed + interval)
          (.sleep interval :: .poll :: r.1, r.2)
        | .slowDown =>
          let r := runDeviceAuthLoop timeoutMs rest (min (interval * (3 / 2)) 10000)
            (elapsed + interval)
          (.sleep interval :: .poll :: r.1, r.2)
        | .token t => ([.sleep interval, .poll], .success t (elapsed + interval))
        | .failure m => ([.sleep interval, .poll], .failure m)
    else ([], .timeout)

/-- oauth.js `performDeviceAuthFlow(onVerificationUrl, pollIntervalMs,
timeoutMs)` after a successful `requestDeviceAuthorization`: calls
`onVerificationUrl(verification_uri_complete, user_code)` once, then runs
the polling loop starting from `interval = pollIntervalMs`, `elapsed = 0`. -/
def performDeviceAuthFlow (deviceAuth : DeviceAuth) (script : List PollOutcome)
    (pollIntervalMs timeoutMs : ℚ) : List FlowEvent × FlowResult :=
  let r := runDeviceAuthLoop timeoutMs script pollIntervalMs 0
  (.verificationUrl deviceAuth.verification_uri_complete deviceAuth.user_code :: r.1, r.2)

/-- one proxied request under the round-robin strategy, as server.js
performs it: select via `getNextAvailableAccount`, then record usage via
`updateAccountStats(account.id)`; iterated over a list of request times.
Returns the ids selected, in order. -/
def runRoundRobin (s : AccountStore) : List Int → List Str
  | [] => []
  | t :: ts =>
    match getNextAvailableAccount s t with
    | none => []
    | some a => a.id :: runRoundRobin ((updateAccountStats s a.id t).getD s) ts

/-! ### Claim theorems -/

/-- sample valid credentials used by witnesses: token present, expiry at
100000 ms. -/
def sampleCreds : Credentials :=
  { accessToken := some ("tok".data)
    tokenType := "Bearer".data
    refreshToken := some ("ref".data)
    resourceUrl := none
    expiryDate := some 100000
    scope := none }

/-- C2: manager.js `isTokenValid` holds exactly when the credentials carry
a (truthy) access token and a (truthy) expiryDate with `now` strictly
earlier than `expiryDate - 30000`: under those conditions validity is
equivalent to `now < expiryDate - 30000`, and it fails whenever the
access token or the expiryDate is missing (or JS-falsy).  oauth.js
`isCredentialsExpired` holds precisely when a truthy expiryDate satisfies
`now > expiryDate - 30000`, and a missing expiryDate counts as
non-expiring there.  The buffer is 30000 ms. -/
theorem isTokenValid_isCredentialsExpired_characterization
    (c : Credentials) (now : Int) :
    (∀ e, c.expiryDate = some e → e ≠ 0 → strTruthy c.accessToken = true →
      (isTokenValid c now = true ↔ now < e - 30000))
    ∧ (c.expiryDate = none → isTokenValid c now = false)
    ∧ (c.expiryDate = some 0 → isTokenValid c now = false)
    ∧ (strTruthy c.accessToken = false → isTokenValid c now = false)
    ∧ (c.accessToken = none → isTokenValid c now = false)
    ∧ (∀ e, c.expiryDate = some e → e ≠ 0 →
      (isCredentialsExpired c now = true ↔ now > e - 30000))
    ∧ (c.expiryDate = none → isCredentialsExpired c now = false)
    ∧ TOKEN_REFRESH_BUFFER_MS = 30000 := by
  refine ⟨?_, ?_, ?_, ?_, ?_, ?_, ?_, by norm_num [TOKEN_REFRESH_BUFFER_MS]⟩
  · intro e hx he ha
    simp [isTokenValid, numTruthy, hx, ha, bne, he, TOKEN_REFRESH_BUFFER_MS]
  · intro hx
    simp [isTokenValid, numTruthy, hx]
  · intro hx
    simp [isTokenValid, numTruthy, hx]
  · intro ha
    simp [isTokenValid, ha]
  · intro ha
    simp [isTokenValid, strTruthy, ha]
  · intro e hx he
    simp [isCredentialsExpired, numTruthy, hx, bne, he, TOKEN_REFRESH_BUFFER_MS]
  · intro hx
    simp [isCredentialsExpired, numTruthy, hx]

/-- C2 witness: the characterization applied at concrete credentials and
times. -/
theorem isTokenValid_isCredentialsExpired_characterization_witness :
    isTokenValid sampleCreds 0 = true ∧ isCredentialsExpired sampleCreds 80000 = true :=
  ⟨((isTokenValid_isCredentialsExpired_characterization sampleCreds 0).1 100000
      (by decide) (by decide) (by decide)).mpr (by decide),
   ((isTokenValid_isCredentialsExpired_characterization sampleCreds 80000).2.2.2.2.2.1 100000
      (by decide) (by decide)).mpr (by decide)⟩

/-- C8: `resolveBaseUrl` is total and its output is always one of the
three fixed upstream base URLs or the verbatim absolute http(s) input
with `/v1` appended when missing; matching is by substring on the
lowercased+trimmed input in priority order portal, then dashscope-intl,
then dashscope; any other absolute http(s) URL is used verbatim with
`/v1` appended if absent; every remaining input (empty/falsy or
unrecognized) falls back to the default regional base URL. -/
theorem resolveBaseUrl_total_characterization (ru : Option Str) :
    (resolveBaseUrl ru = apiDashscope ∨ resolveBaseUrl ru = apiDashscopeIntl ∨
      resolveBaseUrl ru = apiPortal ∨
      (∃ r, ru = some r ∧
        (strStartsWith (strTrim (jsToLower r)) ("http://".data) = true ∨
          strStartsWith (strTrim (jsToLower r)) ("https://".data) = true) ∧
        (resolveBaseUrl ru = r ∨ resolveBaseUrl ru = r ++ ("/v1".data))))
    ∧ (strTruthy ru = false → resolveBaseUrl ru = apiDashscope)
    ∧ (∀ r, ru = some r → strTruthy ru = true →
        (strIncludes (strTrim (jsToLower r)) ("portal.qwen.ai".data) = true →
          resolveBaseUrl ru = apiPortal)
        ∧ (strIncludes (strTrim (jsToLower r)) ("portal.qwen.ai".data) = false →
            strIncludes (strTrim (jsToLower r)) ("dashscope-intl".data) = true →
          resolveBaseUrl ru = apiDashscopeIntl)
        ∧ (strIncludes (strTrim (jsToLower r)) ("portal.qwen.ai".data) = false →
            strIncludes (strTrim (jsToLower r)) ("dashscope-intl".data) = false →
            strIncludes (strTrim (jsToLower r)) ("dashscope".data) = true →
          resolveBaseUrl ru = apiDashscope)
        ∧ (strIncludes (strTrim (jsToLower r)) ("portal.qwen.ai".data) = false →
            strIncludes (strTrim (jsToLower r)) ("dashscope-intl".data) = false →
            strIncludes (strTrim (jsToLower r)) ("dashscope".data) = false →
            (strStartsWith (strTrim (jsToLower r)) ("http://".data) = true ∨
              strStartsWith (strTrim (jsToLower r)) ("https://".data) = true) →
          resolveBaseUrl ru =
            (if strEndsWith r ("/v1".data) then r else r ++ ("/v1".data)))
        ∧ (strIncludes (strTrim (jsToLower r)) ("portal.qwen.ai".data) = false →
            strIncludes (strTrim (jsToLower r)) ("dashscope-intl".data) = false →
            strIncludes (strTrim (jsToLower r)) ("dashscope".data) = false →
            strStartsWith (strTrim (jsToLower r)) ("http://".data) = false →
            strStartsWith (strTrim (jsToLower r)) ("https://".data) = false →
          resolveBaseUrl ru = apiDashscope)) := by
  refine ⟨?_, ?_, ?_⟩
  · by_cases ht : strTruthy ru
    · rcases ru with _ | r
      · simp [strTruthy] at ht
      · by_cases h1 : strIncludes (strTrim (jsToLower r)) ("portal.qwen.ai".data) = true
        · right; right; left
          simp [resolveBaseUrl, ht, h1]
        · by_cases h2 : strIncludes (strTrim (jsToLower r)) ("dashscope-intl".data) = true
          · right; left
            simp [resolveBaseUrl, ht, eq_false_of_ne_true h1, h2]
          · by_cases h3 : strIncludes (strTrim (jsToLower r)) ("dashscope".data) = true
            · left
              simp [resolveBaseUrl, ht, eq_false_of_ne_true h1, eq_false_of_ne_true h2, h3]
            · by_cases h4 : (strStartsWith (strTrim (jsToLower r)) ("http://".data) ||
                strStartsWith (strTrim (jsToLower r)) ("https://".data)) = true
              · right; right; right
                refine ⟨r, rfl, by simpa using h4, ?_⟩
                by_cases h5 : strEndsWith r ("/v1".data) = true
                · left
                  simp [resolveBaseUrl, ht, eq_false_of_ne_true h1, eq_false_of_ne_true h2,
                    eq_false_of_ne_true h3, h4, h5]
                · right
                  simp [resolveBaseUrl, ht, eq_false_of_ne_true h1, eq_false_of_ne_true h2,
                    eq_false_of_ne_true h3, h4, eq_false_of_ne_true h5]
              · left
                simp [resolveBaseUrl, ht, eq_false_of_ne_true h1, eq_false_of_ne_true h2,
                  eq_false_of_ne_true h3, eq_false_of_ne_true h4]
    · left
      simp [resolveBaseUrl, eq_false_of_ne_true ht]
  · intro ht
    simp [resolveBaseUrl, ht]
  · rintro r rfl ht
    refine ⟨?_, ?_, ?_, ?_, ?_⟩
    · intro h1
      simp [resolveBaseUrl, ht, h1]
    · intro h1 h2
      simp [resolveBaseUrl, ht, h1, h2]
    · intro h1 h2 h3
      simp [resolveBaseUrl, ht, h1, h2, h3]
    · intro h1 h2 h3 h4
      rcases h4 with h4 | h4 <;>
        simp [resolveBaseUrl, ht, h1, h2, h3, h4]
    · intro h1 h2 h3 h4 h5
      simp [resolveBaseUrl, ht, h1, h2, h3, h4, h5]

/-- C8 witness: the characterization applied to concrete inputs, among
them the empty string, a malformed URL and a self-hosted absolute URL. -/
theorem resolveBaseUrl_total_characterization_witness :
    resolveBaseUrl (some []) = apiDashscope
    ∧ resolveBaseUrl (some ("not a url %%%".data)) = apiDashscope
    ∧ resolveBaseUrl (some ("https://MY-HOST.example".data)) =
        ("https://MY-HOST.example".data) ++ ("/v1".data)
    ∧ resolveBaseUrl (some ("portal.qwen.ai".data)) = apiPortal :=
  ⟨(resolveBaseUrl_total_characterization (some [])).2.1 (by decide),
   ((resolveBaseUrl_total_characterization (some ("not a url %%%".data))).2.2
      ("not a url %%%".data) rfl (by decide)).2.2.2.2 (by decide) (by decide)
      (by decide) (by decide) (by decide),
   by
    have h := ((resolveBaseUrl_total_characterization
        (some ("https://MY-HOST.example".data))).2.2 ("https://MY-HOST.example".data)
        rfl (by decide)).2.2.2.1 (by decide) (by decide) (by decide)
        (Or.inr (by decide))
    simpa using h,
   ((resolveBaseUrl_total_characterization (some ("portal.qwen.ai".data))).2.2
      ("portal.qwen.ai".data) rfl (by decide)).1 (by decide)⟩

/-- credentials whose stored tokenType is not `Bearer` and whose
resourceUrl targets the international provider. -/
def c4IntlCreds : Credentials :=
  { accessToken := some ("tok".data)
    tokenType := "MAC".data
    refreshToken := none
    resourceUrl := some ("https://dashscope-intl.aliyuncs.com".data)
    expiryDate := some 100000
    scope := none }

/-- credentials with an unrecognized resourceUrl, which resolves to the
default provider by fallback. -/
def c4FallbackCreds : Credentials :=
  { accessToken := some ("tok".data)
    tokenType := "Bearer".data
    refreshToken := none
    resourceUrl := some ("some-unknown-provider".data)
    expiryDate := some 100000
    scope := none }

/-- C4 counterexample: at `c4IntlCreds` the Authorization header is
`Bearer tok`, not the stored tokenType `MAC` followed by the token, so
the header is not `<tokenType> <accessToken>`; moreover the resolved base
URL is the international provider, not the default one, yet all three
vendor headers are set; and at `c4FallbackCreds` the resolved base URL is
the default provider, yet no vendor header is set.  Both directions of
the claimed equivalence fail. -/
theorem buildHeaders_claim_counterexample :
    (buildHeaders c4IntlCreds).authorization ≠
      c4IntlCreds.tokenType ++ (' ' :: []) ++ optStr c4IntlCreds.accessToken
    ∧ resolveBaseUrl c4IntlCreds.resourceUrl = apiDashscopeIntl
    ∧ resolveBaseUrl c4IntlCreds.resourceUrl ≠ apiDashscope
    ∧ (buildHeaders c4IntlCreds).dashscopeCacheControl = some ("enable".data)
    ∧ (buildHeaders c4IntlCreds).dashscopeUserAgent = some ("qwen-proxy/1.1.0".data)
    ∧ (buildHeaders c4IntlCreds).dashscopeAuthType = some ("qwen-oauth".data)
    ∧ resolveBaseUrl c4FallbackCreds.resourceUrl = apiDashscope
    ∧ (buildHeaders c4FallbackCreds).dashscopeCacheControl = none
    ∧ (buildHeaders c4FallbackCreds).dashscopeUserAgent = none
    ∧ (buildHeaders c4FallbackCreds).dashscopeAuthType = none := by
  decide

/-- C4 amended: `buildHeaders` always sets Authorization to the literal
string `Bearer` followed by a space and the access token (the stored
tokenType is ignored) and Content-Type to `application/json`; it sets the
three vendor headers exactly when the lowercased resourceUrl contains
`dashscope` or the resourceUrl is missing or empty — a condition on the
raw resourceUrl, not on the resolved base URL. -/
theorem buildHeaders_amended (c : Credentials) :
    (buildHeaders c).authorization = ("Bearer ".data) ++ optStr c.accessToken
    ∧ (buildHeaders c).contentType = "application/json".data
    ∧ (((buildHeaders c).dashscopeCacheControl = some ("enable".data)
        ∧ (buildHeaders c).dashscopeUserAgent = some ("qwen-proxy/1.1.0".data)
        ∧ (buildHeaders c).dashscopeAuthType = some ("qwen-oauth".data)) ↔
      ((∃ r, c.resourceUrl = some r ∧
          strIncludes (jsToLower r) ("dashscope".data) = true)
        ∨ c.resourceUrl = none ∨ c.resourceUrl = some []))
    ∧ (((buildHeaders c).dashscopeCacheControl = none
        ∧ (buildHeaders c).dashscopeUserAgent = none
        ∧ (buildHeaders c).dashscopeAuthType = none) ↔
      ¬((∃ r, c.resourceUrl = some r ∧
          strIncludes (jsToLower r) ("dashscope".data) = true)
        ∨ c.resourceUrl = none ∨ c.resourceUrl = some [])) := by
  refine ⟨rfl, rfl, ?_, ?_⟩
  · rcases hr : c.resourceUrl with _ | r
    · simp [buildHeaders, hr, jsToLower]
    · by_cases h1 : strIncludes (jsToLower r) ("dashscope".data) = true
      · simp [buildHeaders, hr, h1]
      · by_cases h2 : r = []
        · subst h2
          simp [buildHeaders, hr, jsToLower] at h1 ⊢
        · have hlen : (jsToLower r).isEmpty = false := by
            rcases r with _ | ⟨c0, r0⟩
            · exact absurd rfl h2
            · simp [jsToLower, List.isEmpty]
          simp [buildHeaders, hr, eq_false_of_ne_true h1, hlen, h2]
  · rcases hr : c.resourceUrl with _ | r
    · simp [buildHeaders, hr, jsToLower]
    · by_cases h1 : strIncludes (jsToLower r) ("dashscope".data) = true
      · simp [buildHeaders, hr, h1]
      · by_cases h2 : r = []
        · subst h2
          simp [buildHeaders, hr, jsToLower] at h1 ⊢
        · have hlen : (jsToLower r).isEmpty = false := by
            rcases r with _ | ⟨c0, r0⟩
            · exact absurd rfl h2
            · simp [jsToLower, List.isEmpty]
          simp [buildHeaders, hr, eq_false_of_ne_true h1, hlen, h2]

/-- C4 amended witness: the amended characterization applied to the two
concrete credential records. -/
theorem buildHeaders_amended_witness :
    (buildHeaders c4IntlCreds).dashscopeCacheControl = some ("enable".data)
    ∧ (buildHeaders c4FallbackCreds).dashscopeCacheControl = none :=
  ⟨(((buildHeaders_amended c4IntlCreds).2.2.1).mpr
      (Or.inl ⟨"https://dashscope-intl.aliyuncs.com".data, rfl, by decide⟩)).1,
   (((buildHeaders_amended c4FallbackCreds).2.2.2).mpr (by decide)).1⟩

/-- a disabled account stored under key `a` and referenced as the
default. -/
def c1DisabledAccount : Account :=
  { id := "a".data
    name := "A".data
    credentials := sampleCreds
    createdAt := 0
    lastUsed := none
    requestCount := 0
    enabled := false }

/-- an enabled account with a valid token stored under key `b`. -/
def c1EnabledAccount : Account :=
  { id := "b".data
    name := "B".data
    credentials := sampleCreds
    createdAt := 0
    lastUsed := none
    requestCount := 0
    enabled := true }

/-- a store whose default references the disabled account while an
enabled, valid account exists. -/
def c1Store : AccountStore :=
  { accounts := [("a".data, c1DisabledAccount), ("b".data, c1EnabledAccount)]
    defaultAccountId := some ("a".data) }

/-- C1 counterexample: under the `default` strategy on `c1Store` the
selection returns the disabled default account itself, not the first
enabled account `b` the claim requires; so the claimed fallback for a
disabled default does not exist in the code. -/
theorem defaultStrategy_claim_counterexample :
    getAccountForRequest c1Store 0 ("default".data) = some c1DisabledAccount
    ∧ c1DisabledAccount.enabled = false
    ∧ lookupAccount c1Store ("b".data) = some c1EnabledAccount
    ∧ c1EnabledAccount.enabled = true
    ∧ isTokenValid c1EnabledAccount.credentials 0 = true
    ∧ getAccountForRequest c1Store 0 ("default".data) ≠ some c1EnabledAccount := by
  decide

/-- C1 amended: under the `default` strategy, selection returns exactly
the account referenced by `defaultAccountId` whenever that account is
stored, regardless of its enabled flag; when `defaultAccountId` is
null/empty or references no stored account it returns null, with no
fallback to any enabled account. -/
theorem defaultStrategy_amended (s : AccountStore) (now : Int) :
    getAccountForRequest s now ("default".data) = getDefaultAccount s
    ∧ (strTruthy s.defaultAccountId = false → getDefaultAccount s = none)
    ∧ (∀ id, s.defaultAccountId = some id → strTruthy s.defaultAccountId = true →
        getDefaultAccount s = lookupAccount s id) := by
  have hc : ((("default".data) == ("round-robin".data)) ||
      (("default".data) == ("load-balance".data))) = false := by decide
  refine ⟨by simp [getAccountForRequest, hc], ?_, ?_⟩
  · intro h
    simp [getDefaultAccount, h]
  · intro id hid ht
    simp [getDefaultAccount, hid, ht] at ht ⊢
    simp [Option.getD, hid, ht]

/-- C1 amended witness: applied to the concrete store, the default
strategy returns the stored (disabled) default account. -/
theorem defaultStrategy_amended_witness :
    getDefaultAccount c1Store = some c1DisabledAccount := by
  have h := (defaultStrategy_amended c1Store 0).2.2 ("a".data) rfl (by decide)
  simpa using h

/-- C10: for an account id absent from the store, every mutating
operation leaves the persisted store unchanged: removeAccount,
toggleAccount, updateCredentials and setDefaultAccount raise the
account-not-found error before any save (no store is produced), and
updateAccountStats returns silently without writing. -/
theorem absent_id_mutations_no_save (s : AccountStore) (accountId : Str)
    (enabled : Bool) (cred : Credentials) (now : Int)
    (h : lookupAccount s accountId = none) :
    removeAccount s accountId = .error (accountNotFoundMsg accountId)
    ∧ toggleAccount s accountId enabled = .error (accountNotFoundMsg accountId)
    ∧ updateCredentials s accountId cred = .error (accountNotFoundMsg accountId)
    ∧ setDefaultAccount s accountId = .error (accountNotFoundMsg accountId)
    ∧ updateAccountStats s accountId now = none := by
  refine ⟨?_, ?_, ?_, ?_, ?_⟩
  · unfold removeAccount
    rw [h]
  · unfold toggleAccount
    rw [h]
    simp
  · unfold updateCredentials
    rw [h]
    simp
  · unfold setDefaultAccount
    rw [h]
    simp
  · unfold updateAccountStats
    rw [h]
    simp

/-- C10 witness: applied to the concrete store at an id it does not
contain. -/
theorem absent_id_mutations_no_save_witness :
    removeAccount c1Store ("zz".data) =
      .error (accountNotFoundMsg ("zz".data))
    ∧ updateAccountStats c1Store ("zz".data) 5 = none :=
  ⟨(absent_id_mutations_no_save c1Store ("zz".data) true sampleCreds 5 (by decide)).1,
   (absent_id_mutations_no_save c1Store ("zz".data) true sampleCreds 5 (by decide)).2.2.2.2⟩

/-- C7: `getValidCredentials` fails with the not-found error for every
id absent from the store; fails with the disabled error for every stored
account with `enabled = false`, regardless of token freshness; fails with
the expired-token error when the token is invalid and no refresh token is
present; and every successful result carries either the stored still-valid
credentials or the freshly refreshed ones — never stale credentials. -/
theorem getValidCredentials_error_paths (s : AccountStore) (accountId : Str)
    (refreshResp : Except Str TokenResponse) (now : Int) :
    (lookupAccount s accountId = none →
      getValidCredentials s accountId refreshResp now = .error .notFound)
    ∧ (∀ a, lookupAccount s accountId = some a → a.enabled = false →
      getValidCredentials s accountId refreshResp now = .error .disabled)
    ∧ (∀ a, lookupAccount s accountId = some a → a.enabled = true →
        isTokenValid a.credentials now = false →
        strTruthy a.credentials.refreshToken = false →
      getValidCredentials s accountId refreshResp now = .error .expiredNoRefreshToken)
    ∧ (∀ s2 c, getValidCredentials s accountId refreshResp now = .ok (s2, c) →
      (isTokenValid c now = true ∧ s2 = s ∧
        (∃ a, lookupAccount s accountId = some a ∧ c = a.credentials))
      ∨ (∃ a data, lookupAccount s accountId = some a ∧ refreshResp = .ok data ∧
          c = refreshAccessToken data (a.credentials.refreshToken.getD []) now)) := by
  refine ⟨?_, ?_, ?_, ?_⟩
  · intro h
    unfold getValidCredentials
    rw [h]
  · intro a ha he
    unfold getValidCredentials
    rw [ha]
    simp [he]
  · intro a ha he hv hr
    unfold getValidCredentials
    rw [ha]
    simp [he, hv, hr]
  · intro s2 c h
    unfold getValidCredentials at h
    rcases ha : lookupAccount s accountId with _ | a
    · rw [ha] at h
      exact absurd h (by simp)
    · rw [ha] at h
      by_cases he : a.enabled
      · by_cases hv : isTokenValid a.credentials now
        · left
          simp [he, hv] at h
          exact ⟨h.2 ▸ hv, h.1.symm, a, rfl, h.2.symm⟩
        · right
          by_cases hr : strTruthy a.credentials.refreshToken
          · rcases refreshResp with e | data
            · simp [he, hv, hr] at h
            · simp [he, hv, hr] at h
              rcases hu : updateCredentials s accountId
                  (refreshAccessToken data (a.credentials.refreshToken.getD []) now) with e2 | s3
              · rw [hu] at h
                exact absurd h (by simp)
              · rw [hu] at h
                simp at h
                exact ⟨a, data, rfl, rfl, h.2.symm⟩
          · simp [he, hv, hr] at h
      · simp [he] at h

/-- C7 witness: the theorem applied to the concrete store: the disabled
default account fails with the disabled error even though its token is
fresh, and an absent id fails with the not-found error. -/
theorem getValidCredentials_error_paths_witness :
    getValidCredentials c1Store ("a".data) (.error ("x".data)) 0 = .error .disabled
    ∧ isTokenValid c1DisabledAccount.credentials 0 = true
    ∧ getValidCredentials c1Store ("zz".data) (.error ("x".data)) 0 = .error .notFound :=
  ⟨(getValidCredentials_error_paths c1Store ("a".data) (.error ("x".data)) 0).2.1
      c1DisabledAccount (by decide) (by decide),
   by decide,
   (getValidCredentials_error_paths c1Store ("zz".data) (.error ("x".data)) 0).1 (by decide)⟩

/-- find? over a keyed in-place update touches exactly the matching
entry. -/
theorem find?_map_keyUpdate (l : List (Str × Account)) (id : Str)
    (f : Account → Account) :
    (l.map (fun p => if p.1 == id then (p.1, f p.2) else p)).find?
        (fun p => p.1 == id) =
      (l.find? (fun p => p.1 == id)).map (fun p => (p.1, f p.2)) := by
  induction l with
  | nil => rfl
  | cons p rest ih =>
    by_cases hp : (p.1 == id) = true
    · simp [List.find?, hp]
    · have hp2 : (p.1 == id) = false := eq_false_of_ne_true hp
      simp only [List.map_cons, if_neg hp]
      simp only [List.find?, hp2]
      exact ih

/-- a successful `updateCredentials` rewrites exactly the credentials of
the addressed account. -/
theorem lookupAccount_updateCredentials_ok (s : AccountStore) (accountId : Str)
    (cred : Credentials) (s2 : AccountStore)
    (h : updateCredentials s accountId cred = .ok s2) :
    lookupAccount s2 accountId =
      (lookupAccount s accountId).map (fun a => { a with credentials := cred }) := by
  unfold updateCredentials at h
  by_cases hl : (lookupAccount s accountId).isNone
  · rw [if_pos hl] at h
    exact absurd h (by simp)
  · rw [if_neg hl] at h
    have hs2 : s2 = { s with accounts := s.accounts.map (fun p =>
        if p.1 == accountId then (p.1, { p.2 with credentials := cred }) else p) } := by
      cases h
      rfl
    subst hs2
    unfold lookupAccount
    rw [find?_map_keyUpdate s.accounts accountId (fun a => { a with credentials := cred })]
    cases s.accounts.find? (fun p => p.1 == accountId) <;> rfl

/-- falsy first operand makes JS `a || b` produce `b`. -/
theorem jsOrStr_of_falsy (a : Option Str) (b : Str) (h : strTruthy a = false) :
    jsOrStr a b = b := by
  unfold jsOrStr
  rw [h]
  simp

/-- C6: when the token-endpoint response omits (or JS-falsily carries) a
new refresh token, the refreshed Credentials retain the prior refresh
token; when the response carries a truthy refresh token the new one is
used; and when `getValidCredentials` performs such a refresh, both the
credentials persisted onto the account and the credentials returned to
the caller carry the preserved refresh token. -/
theorem refresh_preserves_refreshToken (data : TokenResponse)
    (oldRefresh : Str) (now : Int) :
    (strTruthy data.refresh_token = false →
      (refreshAccessToken data oldRefresh now).refreshToken = some oldRefresh)
    ∧ (∀ r, data.refresh_token = some r → strTruthy data.refresh_token = true →
      (refreshAccessToken data oldRefresh now).refreshToken = some r)
    ∧ (∀ s accountId a s2 c,
        lookupAccount s accountId = some a →
        getValidCredentials s accountId (.ok data) now = .ok (s2, c) →
        isTokenValid a.credentials now = false →
        strTruthy data.refresh_token = false →
        c.refreshToken = some (a.credentials.refreshToken.getD [])
        ∧ lookupAccount s2 accountId = some { a with credentials := c }) := by
  refine ⟨?_, ?_, ?_⟩
  · intro h
    simp [refreshAccessToken, jsOrStr_of_falsy data.refresh_token oldRefresh h]
  · intro r hr ht
    rw [hr] at ht
    simp [refreshAccessToken, jsOrStr, ht, hr]
  · intro s accountId a s2 c ha h hv hf
    unfold getValidCredentials at h
    rw [ha] at h
    by_cases he : a.enabled
    · by_cases hr : strTruthy a.credentials.refreshToken
      · simp [he, hv, hr] at h
        rcases hu : updateCredentials s accountId
            (refreshAccessToken data (a.credentials.refreshToken.getD []) now) with e2 | s3
        · rw [hu] at h
          exact absurd h (by simp)
        · rw [hu] at h
          simp at h
          rcases h with ⟨hs2, hc⟩
          constructor
          · rw [← hc]
            simp [refreshAccessToken,
              jsOrStr_of_falsy data.refresh_token (a.credentials.refreshToken.getD []) hf]
          · have := lookupAccount_updateCredentials_ok s accountId
              (refreshAccessToken data (a.credentials.refreshToken.getD []) now) s3 hu
            rw [← hs2, this, ha, hc]
            rfl
      · simp [he, hv, hr] at h
    · simp [he] at h

/-- C6 witness: a concrete refresh whose response omits the refresh token
keeps the old one, both in the returned credentials and on the stored
account. -/
theorem refresh_preserves_refreshToken_witness :
    (refreshAccessToken
        { access_token := some ("new".data), token_type := none,
          refresh_token := none, resource_url := none,
          expires_in := 3600, scope := none }
        ("oldref".data) 0).refreshToken = some ("oldref".data) :=
  (refresh_preserves_refreshToken
      { access_token := some ("new".data), token_type := none,
        refresh_token := none, resource_url := none,
        expires_in := 3600, scope := none }
      ("oldref".data) 0).1 (by decide)

/-- a keyed in-place update does not change which keys `find?` can see. -/
theorem find?_map_keyUpdate_any (l : List (Str × Account)) (id k2 : Str)
    (f : Account → Account) :
    (l.map (fun p => if p.1 == id then (p.1, f p.2) else p)).find?
        (fun p => p.1 == k2) =
      (l.find? (fun p => p.1 == k2)).map
        (fun p => if p.1 == id then (p.1, f p.2) else p) := by
  induction l with
  | nil => rfl
  | cons p rest ih =>
    have hfst : (if p.1 == id then (p.1, f p.2) else p).1 = p.1 := by
      by_cases hp : (p.1 == id) = true <;> simp [hp]
    by_cases hq : (p.1 == k2) = true
    · simp only [List.map_cons, List.find?, hfst, hq]
      rfl
    · have hq2 : (p.1 == k2) = false := eq_false_of_ne_true hq
      simp only [List.map_cons, List.find?, hfst, hq2]
      exact ih

/-- `objSet` stores the assigned entry under its key. -/
theorem find?_objSet_self (l : List (Str × Account)) (k : Str) (v : Account) :
    (objSet l k v).find? (fun p => p.1 == k) = some (k, v) := by
  induction l with
  | nil =>
    simp [objSet, List.find?]
  | cons p rest ih =>
    by_cases hp : (p.1 == k) = true
    · simp [objSet, hp, List.find?]
    · have hp2 : (p.1 == k) = false := eq_false_of_ne_true hp
      simp only [objSet, hp2, Bool.false_eq_true, if_false, List.find?, hp2]
      exact ih

/-- `objSet` leaves entries under other keys untouched. -/
theorem find?_objSet_other (l : List (Str × Account)) (k k2 : Str) (v : Account)
    (h : k2 ≠ k) :
    (objSet l k v).find? (fun p => p.1 == k2) = l.find? (fun p => p.1 == k2) := by
  have hk : (k == k2) = false := by
    simp [beq_eq_false_iff_ne]
    exact fun he => h he.symm
  induction l with
  | nil =>
    simp [objSet, List.find?, hk]
  | cons p rest ih =>
    by_cases hp : (p.1 == k) = true
    · have hpk : p.1 = k := by
        simpa [beq_iff_eq] using hp
      have hpk2 : (p.1 == k2) = false := by
        rw [hpk]
        exact hk
      simp only [objSet, hp, if_true, List.find?, hk, hpk2]
    · have hp2 : (p.1 == k) = false := eq_false_of_ne_true hp
      by_cases hq : (p.1 == k2) = true
      · simp only [objSet, hp2, Bool.false_eq_true, if_false, List.find?, hq]
      · have hq2 : (p.1 == k2) = false := eq_false_of_ne_true hq
        simp only [objSet, hp2, Bool.false_eq_true, if_false, List.find?, hq2]
        exact ih

/-- deleting one key leaves `find?` under a different key unchanged. -/
theorem find?_filter_ne (l : List (Str × Account)) (id d : Str) (h : d ≠ id) :
    (l.filter (fun p => !(p.1 == id))).find? (fun p => p.1 == d) =
      l.find? (fun p => p.1 == d) := by
  induction l with
  | nil => rfl
  | cons p rest ih =>
    by_cases hq : (p.1 == d) = true
    · have hpd : p.1 = d := by
        simpa [beq_iff_eq] using hq
      have hpi : (p.1 == id) = false := by
        rw [hpd]
        simpa [beq_eq_false_iff_ne] using h
      simp only [List.filter, hpi, Bool.not_false, List.find?, hq]
    · have hq2 : (p.1 == d) = false := eq_false_of_ne_true hq
      by_cases hpi : (p.1 == id) = true
      · simp only [List.filter, hpi, Bool.not_true]
        rw [ih]
        simp only [List.find?, hq2]
      · have hpi2 : (p.1 == id) = false := eq_false_of_ne_true hpi
        simp only [List.filter, hpi2, Bool.not_false, List.find?, hq2]
        exact ih

/-- the §3 invariant: a non-null `defaultAccountId` references a stored
account. -/
def defaultInvariant (s : AccountStore) : Prop :=
  ∀ id, s.defaultAccountId = some id → (lookupAccount s id).isSome = true

/-- the store produced by `addAccount`, componentwise. -/
theorem addAccount_components (s : AccountStore) (newId : Str)
    (name : Option Str) (cred : Credentials) (now : Int) :
    (addAccount s newId name cred now).1.accounts =
      objSet s.accounts newId (newAccountRecord s newId name cred now)
    ∧ (addAccount s newId name cred now).1.defaultAccountId =
      (if strTruthy s.defaultAccountId then s.defaultAccountId else some newId) := by
  constructor
  · by_cases ht : strTruthy s.defaultAccountId = true <;>
      simp [addAccount, ht]
  · by_cases ht : strTruthy s.defaultAccountId = true <;>
      simp [addAccount, ht]

/-- C9: every store mutation preserves the invariant that a non-null
`defaultAccountId` references a stored account; removing the current
default reassigns it to the first remaining account, or to null when no
account remains; and adding an account to a store with no (falsy) default
makes the new account the default. -/
theorem store_mutations_preserve_defaultInvariant :
    (∀ (s : AccountStore) (newId : Str) (name : Option Str) (cred : Credentials)
        (now : Int), defaultInvariant s →
      defaultInvariant (addAccount s newId name cred now).1
      ∧ (strTruthy s.defaultAccountId = false →
          (addAccount s newId name cred now).1.defaultAccountId = some newId))
    ∧ (∀ (s : AccountStore) (id : Str) (s2 : AccountStore) (nm : Str),
        defaultInvariant s → removeAccount s id = .ok (s2, nm) →
      defaultInvariant s2
      ∧ (s.defaultAccountId = some id →
          (s2.accounts = [] ∧ s2.defaultAccountId = none)
          ∨ (∃ p rest, s2.accounts = p :: rest ∧ s2.defaultAccountId = some p.1)))
    ∧ (∀ (s : AccountStore) (id : Str) (s2 : AccountStore),
        setDefaultAccount s id = .ok s2 → defaultInvariant s2)
    ∧ (∀ (s : AccountStore) (id : Str) (en : Bool) (s2 : AccountStore),
        defaultInvariant s → toggleAccount s id en = .ok s2 → defaultInvariant s2)
    ∧ (∀ (s : AccountStore) (id : Str) (cred : Credentials) (s2 : AccountStore),
        defaultInvariant s → updateCredentials s id cred = .ok s2 →
        defaultInvariant s2)
    ∧ (∀ (s : AccountStore) (id : Str) (now : Int) (s2 : AccountStore),
        defaultInvariant s → updateAccountStats s id now = some s2 →
        defaultInvariant s2) := by
  refine ⟨?_, ?_, ?_, ?_, ?_, ?_⟩
  · intro s newId name cred now hInv
    obtain ⟨hacc, hdef⟩ := addAccount_components s newId name cred now
    constructor
    · intro d hd
      rw [hdef] at hd
      unfold lookupAccount
      rw [hacc]
      by_cases hdn : d = newId
      · subst hdn
        rw [find?_objSet_self]
        rfl
      · rw [find?_objSet_other s.accounts newId d _ hdn]
        by_cases ht : strTruthy s.defaultAccountId = true
        · rw [if_pos ht] at hd
          exact hInv d hd
        · rw [if_neg ht] at hd
          exact absurd (Option.some_inj.mp hd).symm hdn
    · intro ht
      rw [hdef, if_neg (by simp [ht])]
  · intro s id s2 nm hInv h
    unfold removeAccount at h
    rcases ha : lookupAccount s id with _ | a
    · rw [ha] at h
      exact absurd h (by simp)
    · rw [ha] at h
      simp only [Except.ok.injEq, Prod.mk.injEq] at h
      obtain ⟨hs2, hnm⟩ := h
      constructor
      · intro d hd
        rw [← hs2] at hd
        simp only at hd
        rw [← hs2]
        by_cases hq : (s.defaultAccountId == some id) = true
        · rw [if_pos hq] at hd
          rcases hf : s.accounts.filter (fun p => !(p.1 == id)) with _ | ⟨p, rest⟩
          · rw [hf] at hd
            simp at hd
          · rw [hf] at hd
            simp only [List.head?, Option.map_some] at hd
            unfold lookupAccount
            simp only [hf]
            have : (p.1 == d) = true := by
              rw [← Option.some_inj.mp hd]
              exact beq_self_eq_true p.1
            simp [List.find?, this]
        · rw [if_neg (by simp [hq])] at hd
          have hne : d ≠ id := by
            intro he
            subst he
            rw [hd] at hq
            exact hq (beq_self_eq_true (some d))
          unfold lookupAccount
          simp only
          rw [find?_filter_ne s.accounts id d hne]
          exact hInv d hd
      · intro hdef
        rw [← hs2]
        simp only
        have hq : (s.defaultAccountId == some id) = true := by
          rw [hdef]
          exact beq_self_eq_true (some id)
        rw [if_pos hq]
        rcases hf : s.accounts.filter (fun p => !(p.1 == id)) with _ | ⟨p, rest⟩
        · left
          simp [hf]
        · right
          exact ⟨p, rest, by simp [hf]⟩
  · intro s id s2 h
    unfold setDefaultAccount at h
    rcases ha : lookupAccount s id with _ | a
    · rw [ha] at h
      simp at h
    · rw [ha] at h
      simp only [Option.isNone_some, Bool.false_eq_true, if_false, Except.ok.injEq] at h
      intro d hd
      rw [← h] at hd
      simp only at hd
      rw [← h]
      have hdn : d = id := (Option.some_inj.mp hd).symm
      subst hdn
      unfold lookupAccount at ha ⊢
      simp only
      rw [ha]
      rfl
  · intro s id en s2 hInv h
    unfold toggleAccount at h
    rcases ha : lookupAccount s id with _ | a
    · rw [ha] at h
      simp at h
    · rw [ha] at h
      simp only [Option.isNone_some, Bool.false_eq_true, if_false, Except.ok.injEq] at h
      intro d hd
      rw [← h] at hd
      simp only at hd
      rw [← h]
      unfold lookupAccount
      simp only
      rw [find?_map_keyUpdate_any s.accounts id d (fun a => { a with enabled := en })]
      have := hInv d hd
      unfold lookupAccount at this
      rcases hfind : s.accounts.find? (fun p => p.1 == d) with _ | q
      · rw [hfind] at this
        simp at this
      · rw [hfind]
        rfl
  · intro s id cred s2 hInv h
    unfold updateCredentials at h
    rcases ha : lookupAccount s id with _ | a
    · rw [ha] at h
      simp at h
    · rw [ha] at h
      simp only [Option.isNone_some, Bool.false_eq_true, if_false, Except.ok.injEq] at h
      intro d hd
      rw [← h] at hd
      simp only at hd
      rw [← h]
      unfold lookupAccount
      simp only
      rw [find?_map_keyUpdate_any s.accounts id d (fun a => { a with credentials := cred })]
      have := hInv d hd
      unfold lookupAccount at this
      rcases hfind : s.accounts.find? (fun p => p.1 == d) with _ | q
      · rw [hfind] at this
        simp at this
      · rw [hfind]
        rfl
  · intro s id now s2 hInv h
    unfold updateAccountStats at h
    rcases ha : lookupAccount s id with _ | a
    · rw [ha] at h
      simp at h
    · rw [ha] at h
      simp only [Option.isNone_some, Bool.false_eq_true, if_false, Option.some.injEq] at h
      intro d hd
      rw [← h] at hd
      simp only at hd
      rw [← h]
      unfold lookupAccount
      simp only
      rw [find?_map_keyUpdate_any s.accounts id d
        (fun a => { a with lastUsed := some now, requestCount := a.requestCount + 1 })]
      have := hInv d hd
      unfold lookupAccount at this
      rcases hfind : s.accounts.find? (fun p => p.1 == d) with _ | q
      · rw [hfind] at this
        simp at this
      · rw [hfind]
        rfl

/-- C9 witness: removing the default account of the concrete two-account
store reassigns the default to the remaining account, and the invariant
still holds. -/
theorem store_mutations_preserve_defaultInvariant_witness :
    ∃ s2 nm, removeAccount c1Store ("a".data) = .ok (s2, nm)
      ∧ s2.defaultAccountId = some ("b".data) ∧ defaultInvariant s2 := by
  have hInv : defaultInvariant c1Store := by
    intro d hd
    have hd2 : some ("a".data) = some d := hd
    have hda : d = "a".data := (Option.some_inj.mp hd2).symm
    subst hda
    decide
  have hok : removeAccount c1Store ("a".data) =
      .ok ({ accounts := [(("b".data), c1EnabledAccount)],
             defaultAccountId := some ("b".data) }, "A".data) := by
    rfl
  refine ⟨_, _, hok, rfl, ?_⟩
  exact (store_mutations_preserve_defaultInvariant.2.1 c1Store ("a".data) _ _ hInv hok).1

/-- the polling loop never emits the verification-url event. -/
theorem runDeviceAuthLoop_no_verificationUrl (tmo : ℚ) (script : List PollOutcome) :
    ∀ (i e : ℚ) (url uc : Str),
      FlowEvent.verificationUrl url uc ∉ (runDeviceAuthLoop tmo script i e).1 := by
  induction script with
  | nil =>
    intro i e url uc
    rw [runDeviceAuthLoop]
    by_cases h : e < tmo <;> simp [h]
  | cons outcome rest ih =>
    intro i e url uc
    rw [runDeviceAuthLoop.eq_def]
    by_cases h : e < tmo
    · cases outcome with
      | pending =>
        simp only [h, if_true, List.mem_cons]
        rintro (h1 | h1 | h1)
        · exact FlowEvent.noConfusion h1
        · exact FlowEvent.noConfusion h1
        · exact ih i (e + i) url uc h1
      | slowDown =>
        simp only [h, if_true, List.mem_cons]
        rintro (h1 | h1 | h1)
        · exact FlowEvent.noConfusion h1
        · exact FlowEvent.noConfusion h1
        · exact ih (min (i * (3 / 2)) 10000) (e + i) url uc h1
      | token t => simp [h]
      | failure m => simp [h]
    · simp [h]

/-- every sleep the polling loop performs is bounded by any bound above
both the current interval and the 10000 ms cap. -/
theorem runDeviceAuthLoop_sleep_le (tmo : ℚ) (script : List PollOutcome) :
    ∀ (i e M : ℚ), i ≤ M → 10000 ≤ M →
      ∀ q, FlowEvent.sleep q ∈ (runDeviceAuthLoop tmo script i e).1 → q ≤ M := by
  induction script with
  | nil =>
    intro i e M hi hc q
    rw [runDeviceAuthLoop]
    by_cases h : e < tmo <;> simp [h]
  | cons outcome rest ih =>
    intro i e M hi hc q
    rw [runDeviceAuthLoop.eq_def]
    by_cases h : e < tmo
    · cases outcome with
      | pending =>
        simp only [h, if_true, List.mem_cons]
        rintro (h1 | h1 | h1)
        · cases h1
          exact hi
        · exact absurd h1 (by simp)
        · exact ih i (e + i) M hi hc q h1
      | slowDown =>
        simp only [h, if_true, List.mem_cons]
        rintro (h1 | h1 | h1)
        · cases h1
          exact hi
        · exact absurd h1 (by simp)
        · exact ih (min (i * (3 / 2)) 10000) (e + i) M
            (le_trans (min_le_right _ _) hc) hc q h1
      | token t =>
        simp only [h, if_true, List.mem_cons]
        rintro (h1 | h1 | h1)
        · cases h1
          exact hi
        · exact absurd h1 (by simp)
        · exact absurd h1 (by simp)
      | failure m =>
        simp only [h, if_true, List.mem_cons]
        rintro (h1 | h1 | h1)
        · cases h1
          exact hi
        · exact absurd h1 (by simp)
        · exact absurd h1 (by simp)
    · simp [h]

/-- C5: the verification-url callback fires exactly once, as the very
first event, before any sleep or poll; a SlowDownError outcome makes the
loop continue with the interval multiplied by 1.5 and capped at 10000 ms,
so no sleep ever exceeds the larger of the initial interval and 10000 ms;
a token outcome ends the run successfully at that poll instant, and the
conversion of the token response stamps `expiryDate = now +
expires_in * 1000`; and once `timeoutMs` has elapsed with no token the
loop ends with the timeout error. -/
theorem performDeviceAuthFlow_properties :
    (∀ (d : DeviceAuth) (script : List PollOutcome) (i tmo : ℚ),
      ∃ evs, (performDeviceAuthFlow d script i tmo).1 =
          FlowEvent.verificationUrl d.verification_uri_complete d.user_code :: evs
        ∧ ∀ url uc, FlowEvent.verificationUrl url uc ∉ evs)
    ∧ (∀ (tmo : ℚ) (rest : List PollOutcome) (i e : ℚ), e < tmo →
        runDeviceAuthLoop tmo (.slowDown :: rest) i e =
          (FlowEvent.sleep i :: FlowEvent.poll ::
            (runDeviceAuthLoop tmo rest (min (i * (3 / 2)) 10000) (e + i)).1,
           (runDeviceAuthLoop tmo rest (min (i * (3 / 2)) 10000) (e + i)).2))
    ∧ (∀ (d : DeviceAuth) (script : List PollOutcome) (i tmo q : ℚ),
        FlowEvent.sleep q ∈ (performDeviceAuthFlow d script i tmo).1 →
        q ≤ max i 10000)
    ∧ (∀ (tmo : ℚ) (t : TokenResponse) (rest : List PollOutcome) (i e : ℚ), e < tmo →
        runDeviceAuthLoop tmo (.token t :: rest) i e =
          ([FlowEvent.sleep i, FlowEvent.poll], .success t (e + i)))
    ∧ (∀ (t : TokenResponse) (now : Int),
        (tokenResponseToCredentials t now).expiryDate =
          some (now + t.expires_in * 1000))
    ∧ (∀ (tmo : ℚ) (script : List PollOutcome) (i e : ℚ), tmo ≤ e →
        runDeviceAuthLoop tmo script i e = ([], .timeout)) := by
  refine ⟨?_, ?_, ?_, ?_, ?_, ?_⟩
  · intro d script i tmo
    exact ⟨(runDeviceAuthLoop tmo script i 0).1, rfl,
      fun url uc => runDeviceAuthLoop_no_verificationUrl tmo script i 0 url uc⟩
  · intro tmo rest i e h
    rw [runDeviceAuthLoop.eq_def]
    simp [h]
  · intro d script i tmo q hq
    have hq2 : FlowEvent.sleep q ∈
        FlowEvent.verificationUrl d.verification_uri_complete d.user_code ::
          (runDeviceAuthLoop tmo script i 0).1 := hq
    have hmem : FlowEvent.sleep q ∈ (runDeviceAuthLoop tmo script i 0).1 := by
      rcases List.mem_cons.mp hq2 with h1 | h1
      · exact absurd h1 (by simp)
      · exact h1
    exact runDeviceAuthLoop_sleep_le tmo script i 0 (max i 10000)
      (le_max_left _ _) (le_max_right _ _) q hmem
  · intro tmo t rest i e h
    rw [runDeviceAuthLoop.eq_def]
    simp [h]
  · intro t now
    rfl
  · intro tmo script i e h
    have h2 : ¬ e < tmo := not_lt.mpr h
    rw [runDeviceAuthLoop.eq_def]
    simp [h2]

/-- a concrete 3600-second token response used by the C5 witness. -/
def c5Token : TokenResponse :=
  { access_token := some ("t".data)
    token_type := none
    refresh_token := none
    resource_url := none
    expires_in := 3600
    scope := none }

/-- C5 witness: the properties applied at concrete inputs: a timed-out
loop, a successful poll at elapsed 2000 ms with a 3600 s token response,
and its credential conversion stamp. -/
theorem performDeviceAuthFlow_properties_witness :
    runDeviceAuthLoop 100 [] 5 200 = ([], .timeout)
    ∧ runDeviceAuthLoop 300000 [PollOutcome.token c5Token] 2000 0 =
        ([FlowEvent.sleep 2000, FlowEvent.poll], .success c5Token (0 + 2000))
    ∧ (tokenResponseToCredentials c5Token 50).expiryDate = some (50 + 3600 * 1000) := by
  refine ⟨?_, ?_, ?_⟩
  · exact performDeviceAuthFlow_properties.2.2.2.2.2 100 [] 5 200 (by norm_num)
  · exact performDeviceAuthFlow_properties.2.2.2.1 300000 c5Token [] 2000 0 (by norm_num)
  · exact performDeviceAuthFlow_properties.2.2.2.2.1 c5Token 50

/-- unfolding equation: an empty tail makes the head the choice. -/
theorem selectOldest_cons_none (x : Account) (rest : List Account)
    (h : selectOldest rest = none) : selectOldest (x :: rest) = some x := by
  rw [selectOldest, h]

/-- unfolding equation: a chosen tail element competes with the head,
the head winning ties (stable sort, first minimum). -/
theorem selectOldest_cons_some (x : Account) (rest : List Account) (b : Account)
    (h : selectOldest rest = some b) :
    selectOldest (x :: rest) =
      (if usageKey b < usageKey x then some b else some x) := by
  rw [selectOldest, h]

/-- `selectOldest` returns an element of its input. -/
theorem selectOldest_mem : ∀ (l : List Account) (a : Account),
    selectOldest l = some a → a ∈ l := by
  intro l
  induction l with
  | nil =>
    intro a h
    exact absurd h (by simp [selectOldest])
  | cons x rest ih =>
    intro a h
    rcases hr : selectOldest rest with _ | b
    · rw [selectOldest_cons_none x rest hr] at h
      exact (Option.some_inj.mp h) ▸ List.mem_cons_self x rest
    · rw [selectOldest_cons_some x rest b hr] at h
      by_cases hk : usageKey b < usageKey x
      · rw [if_pos hk] at h
        exact List.mem_cons_of_mem x (ih a (hr.trans (congrArg some (Option.some_inj.mp h))))
      · rw [if_neg hk] at h
        exact (Option.some_inj.mp h) ▸ List.mem_cons_self x rest

/-- `selectOldest` returns an element whose usage key is minimal. -/
theorem selectOldest_min : ∀ (l : List Account) (a : Account),
    selectOldest l = some a → ∀ b ∈ l, usageKey a ≤ usageKey b := by
  intro l
  induction l with
  | nil =>
    intro a h
    exact absurd h (by simp [selectOldest])
  | cons x rest ih =>
    intro a h b hb
    rcases hr : selectOldest rest with _ | c
    · rw [selectOldest_cons_none x rest hr] at h
      have hax : a = x := (Option.some_inj.mp h).symm
      subst hax
      rcases List.mem_cons.mp hb with hbx | hbr
      · exact hbx ▸ le_refl _
      · rcases rest with _ | ⟨y, rest2⟩
        · exact absurd hbr (by simp)
        · refine absurd hr ?_
          rcases hz : selectOldest rest2 with _ | z
          · rw [selectOldest_cons_none y rest2 hz]
            simp
          · rw [selectOldest_cons_some y rest2 z hz]
            by_cases hk : usageKey z < usageKey y <;> simp [hk]
    · rw [selectOldest_cons_some x rest c hr] at h
      by_cases hk : usageKey c < usageKey x
      · rw [if_pos hk] at h
        have hac : a = c := (Option.some_inj.mp h).symm
        subst hac
        rcases List.mem_cons.mp hb with hbx | hbr
        · exact hbx ▸ le_of_lt hk
        · exact ih a hr b hbr
      · rw [if_neg hk] at h
        have hax : a = x := (Option.some_inj.mp h).symm
        subst hax
        rcases List.mem_cons.mp hb with hbx | hbr
        · exact hbx ▸ le_refl _
        · exact le_trans (not_lt.mp hk) (ih c hr b hbr)

/-- `selectOldest` succeeds on a nonempty list. -/
theorem selectOldest_isSome : ∀ (l : List Account), l ≠ [] →
    (selectOldest l).isSome = true := by
  intro l h
  rcases l with _ | ⟨x, rest⟩
  · exact absurd rfl h
  · rcases hr : selectOldest rest with _ | b
    · rw [selectOldest_cons_none x rest hr]
      rfl
    · rw [selectOldest_cons_some x rest b hr]
      by_cases hk : usageKey b < usageKey x <;> simp [hk]

/-- a duplicate-free list is no longer than any list containing it. -/
theorem nodup_subset_length_le (l1 l2 : List Str) (h1 : l1.Nodup)
    (h2 : l1 ⊆ l2) : l1.length ≤ l2.length := by
  have e1 : l1.toFinset.card = l1.length := List.toFinset_card_of_nodup h1
  have e2 : l1.toFinset ⊆ l2.toFinset := by
    intro x hx
    rw [List.mem_toFinset] at hx ⊢
    exact h2 hx
  calc l1.length = l1.toFinset.card := e1.symm
    _ ≤ l2.toFinset.card := Finset.card_le_card e2
    _ ≤ l2.length := List.toFinset_card_le l2

/-- a keyed in-place update keeps the key list unchanged. -/
theorem map_fst_map_keyUpdate (l : List (Str × Account)) (id : Str)
    (f : Account → Account) :
    ((l.map (fun p => if p.1 == id then (p.1, f p.2) else p)).map Prod.fst) =
      l.map Prod.fst := by
  induction l with
  | nil => rfl
  | cons p rest ih =>
    by_cases hp : (p.1 == id) = true
    · simp only [List.map_cons, if_pos hp, ih]
    · simp only [List.map_cons, if_neg hp, ih]

/-- with duplicate-free keys, two stored pairs under the same key are the
same pair. -/
theorem eq_of_mem_of_nodup_keys (l : List (Str × Account))
    (hnd : (l.map Prod.fst).Nodup) (r p : Str × Account)
    (hr : r ∈ l) (hp : p ∈ l) (h : r.1 = p.1) : r = p := by
  by_contra hne
  have hpw : l.Pairwise (fun a b => a.1 ≠ b.1) := by
    rw [List.Nodup, List.pairwise_map] at hnd
    exact hnd
  have hsym : Symmetric (fun a b : Str × Account => a.1 ≠ b.1) := by
    intro a b hab
    exact fun he => hab he.symm
  exact (hpw.forall hsym hr hp hne) h

/-- one round of round-robin selection unfolded. -/
theorem runRoundRobin_cons (s : AccountStore) (t : Int) (ts : List Int)
    (a : Account) (h : getNextAvailableAccount s t = some a) :
    runRoundRobin s (t :: ts) =
      a.id :: runRoundRobin ((updateAccountStats s a.id t).getD s) ts := by
  rw [runRoundRobin, h]

/-- a stats update on a stored account saves the store with that account
stamped. -/
theorem updateAccountStats_found (s : AccountStore) (accountId : Str) (now : Int)
    (h : (lookupAccount s accountId).isSome = true) :
    updateAccountStats s accountId now =
      some (AccountStore.mk
        (s.accounts.map (fun p => if p.1 == accountId then
          (p.1, { p.2 with lastUsed := some now, requestCount := p.2.requestCount + 1 })
        else p))
        s.defaultAccountId) := by
  unfold updateAccountStats
  rcases hl : lookupAccount s accountId with _ | a
  · simp [hl] at h
  · rw [if_neg (by simp)]

/-- round-robin fairness: as long as every account is enabled and valid
at every request time, every request time exceeds every stored lastUsed
key, keys are unique and match the id fields, iterated select-then-record
visits pairwise distinct accounts; `visited` carries the ids already
stamped with a request time. -/
theorem runRoundRobin_visits (ts : List Int) :
    ∀ (s : AccountStore) (visited : List Str),
      (∀ p ∈ s.accounts, p.2.id = p.1) →
      (s.accounts.map Prod.fst).Nodup →
      (∀ p ∈ s.accounts, p.2.enabled = true) →
      (∀ p ∈ s.accounts, ∀ t ∈ ts, isTokenValid p.2.credentials t = true) →
      (∀ p ∈ s.accounts, p.1 ∉ visited → ∀ t ∈ ts, usageKey p.2 < t) →
      (∀ p ∈ s.accounts, p.1 ∈ visited → ∀ q ∈ s.accounts, q.1 ∉ visited →
        usageKey q.2 < usageKey p.2) →
      ts.length + visited.length ≤ s.accounts.length →
      visited.Nodup →
      (∀ v ∈ visited, v ∈ s.accounts.map Prod.fst) →
      (runRoundRobin s ts).length = ts.length
      ∧ (runRoundRobin s ts).Nodup
      ∧ (∀ x ∈ runRoundRobin s ts, x ∈ s.accounts.map Prod.fst ∧ x ∉ visited) := by
  induction ts with
  | nil =>
    intro s visited _ _ _ _ _ _ _ _ _
    refine ⟨rfl, List.nodup_nil, ?_⟩
    intro x hx
    exact absurd hx (by simp [runRoundRobin])
  | cons t ts2 ih =>
    intro s visited hid hnd hen hval hunv hvis hlen hvnd hvk
    have hpos : 1 ≤ s.accounts.length := by
      simp only [List.length_cons] at hlen
      omega
    have hE : enabledValidAccounts s t = s.accounts.map (fun p => p.2) := by
      unfold enabledValidAccounts
      refine List.filter_eq_self.mpr ?_
      intro a2 ha2
      obtain ⟨r, hr, hra⟩ := List.mem_map.mp ha2
      rw [← hra]
      have h1 := hen r hr
      have h2 := hval r hr t (List.mem_cons_self t ts2)
      simp [h1, h2]
    have hEne : enabledValidAccounts s t ≠ [] := by
      rw [hE]
      intro hcon
      rw [List.map_eq_nil_iff] at hcon
      rw [hcon] at hpos
      simp at hpos
    have hnext : getNextAvailableAccount s t =
        selectOldest (enabledValidAccounts s t) := by
      unfold getNextAvailableAccount
      have hcond : ¬ ((enabledValidAccounts s t).isEmpty = true) := by
        rw [List.isEmpty_iff]
        exact hEne
      rw [if_neg hcond]
    obtain ⟨a, ha⟩ := Option.isSome_iff_exists.mp (selectOldest_isSome _ hEne)
    have haE : a ∈ enabledValidAccounts s t := selectOldest_mem _ a ha
    have hamin : ∀ b ∈ enabledValidAccounts s t, usageKey a ≤ usageKey b :=
      selectOldest_min _ a ha
    obtain ⟨p, hp, hpa⟩ := List.mem_map.mp (hE ▸ haE)
    have hpid : a.id = p.1 := by
      rw [← hpa]
      exact hid p hp
    have hanv : p.1 ∉ visited := by
      intro hcon
      have hexq : ∃ q, q ∈ s.accounts ∧ q.1 ∉ visited := by
        by_contra hall
        push_neg at hall
        have hsub : (s.accounts.map Prod.fst) ⊆ visited := by
          intro k hk
          obtain ⟨q, hq, hqk⟩ := List.mem_map.mp hk
          rw [← hqk]
          exact hall q hq
        have hle := nodup_subset_length_le _ _ hnd hsub
        rw [List.length_map] at hle
        simp only [List.length_cons] at hlen
        omega
      obtain ⟨q, hq, hqnv⟩ := hexq
      have h6 := hvis p hp hcon q hq hqnv
      have hqE : q.2 ∈ enabledValidAccounts s t := by
        rw [hE]
        exact List.mem_map.mpr ⟨q, hq, rfl⟩
      have hmin := hamin q.2 hqE
      rw [hpa] at h6
      omega
    have hfind : (s.accounts.find? (fun r => r.1 == a.id)).isSome := by
      rw [List.find?_isSome]
      refine ⟨p, hp, ?_⟩
      rw [hpid]
      exact beq_self_eq_true p.1
    obtain ⟨w, hw⟩ := Option.isSome_iff_exists.mp hfind
    have hlk : (lookupAccount s a.id).isSome = true := by
      unfold lookupAccount
      rw [hw]
      rfl
    obtain ⟨s2, hupd, hs2acc⟩ : ∃ s2, updateAccountStats s a.id t = some s2 ∧
        s2.accounts = s.accounts.map (fun r => if r.1 == a.id then
          (r.1, { r.2 with lastUsed := some t, requestCount := r.2.requestCount + 1 })
        else r) :=
      ⟨_, updateAccountStats_found s a.id t hlk, rfl⟩
    have hga : getNextAvailableAccount s t = some a := by
      rw [hnext]
      exact ha
    have hrr : runRoundRobin s (t :: ts2) = a.id :: runRoundRobin s2 ts2 := by
      rw [runRoundRobin_cons s t ts2 a hga, hupd]
      rfl
    have hkeys2 : s2.accounts.map Prod.fst = s.accounts.map Prod.fst := by
      rw [hs2acc]
      exact map_fst_map_keyUpdate s.accounts a.id
        (fun x => { x with lastUsed := some t, requestCount := x.requestCount + 1 })
    have hdecomp : ∀ p2 ∈ s2.accounts, ∃ r, r ∈ s.accounts ∧ p2.1 = r.1
        ∧ p2.2.id = r.2.id ∧ p2.2.enabled = r.2.enabled
        ∧ p2.2.credentials = r.2.credentials
        ∧ (r.1 ≠ a.id → p2 = r) ∧ (r.1 = a.id → usageKey p2.2 = t) := by
      intro p2 hp2
      rw [hs2acc] at hp2
      obtain ⟨r, hr, hgr⟩ := List.mem_map.mp hp2
      by_cases hrk : (r.1 == a.id) = true
      · have hreq : r.1 = a.id := by
          rw [← beq_iff_eq (a := r.1) (b := a.id)]
          exact hrk
        rw [if_pos hrk] at hgr
        refine ⟨r, hr, ?_, ?_, ?_, ?_, ?_, ?_⟩
        · rw [← hgr]
        · rw [← hgr]
        · rw [← hgr]
        · rw [← hgr]
        · intro hcon
          exact absurd hreq hcon
        · intro _
          rw [← hgr]
          rfl
      · have hreq : r.1 ≠ a.id := by
          intro he
          exact hrk (by rw [he]; exact beq_self_eq_true a.id)
        rw [if_neg hrk] at hgr
        exact ⟨r, hr, by rw [← hgr], by rw [← hgr], by rw [← hgr], by rw [← hgr],
          fun _ => hgr.symm, fun he => absurd he hreq⟩
    obtain ⟨ihlen, ihnd, ihmem⟩ := ih s2 (p.1 :: visited)
      (by
        intro p2 hp2
        obtain ⟨r, hr, h1, h2, _, _, _, _⟩ := hdecomp p2 hp2
        rw [h2, hid r hr, h1])
      (by rw [hkeys2]; exact hnd)
      (by
        intro p2 hp2
        obtain ⟨r, hr, _, _, h3, _, _, _⟩ := hdecomp p2 hp2
        rw [h3]
        exact hen r hr)
      (by
        intro p2 hp2 t2 ht2
        obtain ⟨r, hr, _, _, _, h4, _, _⟩ := hdecomp p2 hp2
        rw [h4]
        exact hval r hr t2 (List.mem_cons_of_mem t ht2))
      (by
        intro p2 hp2 hnv t2 ht2
        obtain ⟨r, hr, h1, _, _, _, huneq, _⟩ := hdecomp p2 hp2
        have hr1 : r.1 ≠ a.id := by
          intro he
          apply hnv
          rw [h1, he, hpid]
          exact List.mem_cons_self p.1 visited
        have hpr := huneq hr1
        rw [hpr]
        refine hunv r hr ?_ t2 (List.mem_cons_of_mem t ht2)
        intro hcon
        apply hnv
        rw [h1]
        exact List.mem_cons_of_mem p.1 hcon)
      (by
        intro p2 hp2 hpv q2 hq2 hqnv
        obtain ⟨q, hq, hq1, _, _, _, hquneq, _⟩ := hdecomp q2 hq2
        have hq1ne : q.1 ≠ a.id := by
          intro he
          apply hqnv
          rw [hq1, he, hpid]
          exact List.mem_cons_self p.1 visited
        have hq2eq := hquneq hq1ne
        have hqunv : q.1 ∉ visited := by
          intro hcon
          apply hqnv
          rw [hq1]
          exact List.mem_cons_of_mem p.1 hcon
        rcases List.mem_cons.mp hpv with hhead | htail
        · obtain ⟨r, hr, hr1, _, _, _, _, hueq⟩ := hdecomp p2 hp2
          have hra : r.1 = a.id := by
            rw [← hr1, hhead, hpid]
          have hkey := hueq hra
          rw [hkey, hq2eq]
          exact hunv q hq hqunv t (List.mem_cons_self t ts2)
        · obtain ⟨r, hr, hr1, _, _, _, huneq, _⟩ := hdecomp p2 hp2
          have hr1ne : r.1 ≠ a.id := by
            intro he
            apply hanv
            rw [← hpid, ← he, ← hr1]
            exact htail
          have hp2eq := huneq hr1ne
          rw [hp2eq, hq2eq]
          refine hvis r hr ?_ q hq hqunv
          rw [← hr1]
          exact htail)
      (by
        rw [hs2acc, List.length_map]
        simp only [List.length_cons] at hlen ⊢
        omega)
      (List.nodup_cons.mpr ⟨hanv, hvnd⟩)
      (by
        intro v hv
        rw [hkeys2]
        rcases List.mem_cons.mp hv with hv1 | hv2
        · rw [hv1]
          exact List.mem_map.mpr ⟨p, hp, rfl⟩
        · exact hvk v hv2)
    refine ⟨?_, ?_, ?_⟩
    · rw [hrr, List.length_cons, ihlen, List.length_cons]
    · rw [hrr]
      refine List.nodup_cons.mpr ⟨?_, ihnd⟩
      intro hcon
      have := (ihmem a.id hcon).2
      apply this
      rw [hpid]
      exact List.mem_cons_self p.1 visited
    · intro x hx
      rw [hrr] at hx
      rcases List.mem_cons.mp hx with hxa | hxr
      · subst hxa
        constructor
        · rw [hpid]
          exact List.mem_map.mpr ⟨p, hp, rfl⟩
        · rw [hpid]
          exact hanv
      · obtain ⟨hin, hnvx⟩ := ihmem x hxr
        rw [hkeys2] at hin
        exact ⟨hin, fun hvx => hnvx (List.mem_cons_of_mem p.1 hvx)⟩

/-- C3: the `round-robin` and `load-balance` strategies both route
through `getNextAvailableAccount`; a selected account is drawn from the
enabled-and-valid accounts with minimal (oldest) usage key, never-used
accounts (null lastUsed) being preferred whenever all real timestamps are
positive; when no account is enabled and valid the selection falls back
to the first enabled account holding a refresh token; it returns null
exactly when neither exists; and with N enabled and valid accounts,
N rounds of select-then-record-usage visit each account exactly once. -/
theorem roundRobin_strategy_properties :
    (∀ (s : AccountStore) (now : Int),
      getAccountForRequest s now ("round-robin".data) = getNextAvailableAccount s now
      ∧ getAccountForRequest s now ("load-balance".data) = getNextAvailableAccount s now)
    ∧ (∀ (s : AccountStore) (now : Int) (a : Account),
        getNextAvailableAccount s now = some a →
        (enabledValidAccounts s now ≠ [] ∧ a ∈ enabledValidAccounts s now
          ∧ ∀ b ∈ enabledValidAccounts s now, usageKey a ≤ usageKey b)
        ∨ (enabledValidAccounts s now = [] ∧ (refreshableAccounts s).head? = some a
          ∧ a.enabled = true ∧ strTruthy a.credentials.refreshToken = true))
    ∧ (∀ (s : AccountStore) (now : Int),
        getNextAvailableAccount s now = none ↔
          enabledValidAccounts s now = [] ∧ refreshableAccounts s = [])
    ∧ (∀ (s : AccountStore) (now : Int) (a b : Account),
        getNextAvailableAccount s now = some a →
        b ∈ enabledValidAccounts s now → b.lastUsed = none →
        (∀ c ∈ enabledValidAccounts s now, ∀ u, c.lastUsed = some u → 0 < u) →
        a.lastUsed = none)
    ∧ (∀ (s : AccountStore) (ts : List Int),
        (∀ p ∈ s.accounts, p.2.id = p.1) →
        (s.accounts.map Prod.fst).Nodup →
        (∀ p ∈ s.accounts, p.2.enabled = true) →
        (∀ p ∈ s.accounts, ∀ t ∈ ts, isTokenValid p.2.credentials t = true) →
        (∀ p ∈ s.accounts, ∀ t ∈ ts, usageKey p.2 < t) →
        ts.length = s.accounts.length →
        (runRoundRobin s ts).length = s.accounts.length
        ∧ (runRoundRobin s ts).Nodup
        ∧ ∀ k ∈ s.accounts.map Prod.fst, k ∈ runRoundRobin s ts) := by
  refine ⟨?_, ?_, ?_, ?_, ?_⟩
  · intro s now
    have h1 : ((("round-robin".data) == ("round-robin".data)) ||
        (("round-robin".data) == ("load-balance".data))) = true := by decide
    have h2 : ((("load-balance".data) == ("round-robin".data)) ||
        (("load-balance".data) == ("load-balance".data))) = true := by decide
    constructor
    · unfold getAccountForRequest
      rw [if_pos h1]
    · unfold getAccountForRequest
      rw [if_pos h2]
  · intro s now a h
    unfold getNextAvailableAccount at h
    by_cases hE : (enabledValidAccounts s now).isEmpty = true
    · right
      rw [if_pos hE] at h
      have hEnil : enabledValidAccounts s now = [] := List.isEmpty_iff.mp hE
      have haR : a ∈ refreshableAccounts s :=
        List.mem_of_mem_head? (by rw [h]; rfl)
      have hpred := (List.mem_filter.mp haR).2
      rw [Bool.and_eq_true] at hpred
      exact ⟨hEnil, h, hpred.1, hpred.2⟩
    · left
      rw [if_neg hE] at h
      refine ⟨fun hcon => hE (List.isEmpty_iff.mpr hcon), selectOldest_mem _ a h,
        selectOldest_min _ a h⟩
  · intro s now
    unfold getNextAvailableAccount
    by_cases hE : (enabledValidAccounts s now).isEmpty = true
    · rw [if_pos hE]
      have hEnil : enabledValidAccounts s now = [] := List.isEmpty_iff.mp hE
      rw [List.head?_eq_none_iff]
      constructor
      · intro h
        exact ⟨hEnil, h⟩
      · intro h
        exact h.2
    · rw [if_neg hE]
      constructor
      · intro h
        have := selectOldest_isSome _ (fun hcon => hE (List.isEmpty_iff.mpr hcon))
        rw [h] at this
        simp at this
      · intro h
        exact absurd (List.isEmpty_iff.mpr h.1) hE
  · intro s now a b hsel hbE hbnull hpos
    unfold getNextAvailableAccount at hsel
    by_cases hE : (enabledValidAccounts s now).isEmpty = true
    · have hEnil := List.isEmpty_iff.mp hE
      rw [hEnil] at hbE
      exact absurd hbE (List.not_mem_nil b)
    · rw [if_neg hE] at hsel
      have hmin := selectOldest_min _ a hsel b hbE
      have haE := selectOldest_mem _ a hsel
      have hbkey : usageKey b = 0 := by simp [usageKey, hbnull]
      rcases hla : a.lastUsed with _ | u
      · rfl
      · have hu := hpos a haE u hla
        have hakey : usageKey a = u := by simp [usageKey, hla]
        rw [hakey, hbkey] at hmin
        omega
  · intro s ts hid hnd hen hval hts hlen
    have hmain := runRoundRobin_visits ts s [] hid hnd hen hval
      (fun p hp _ => hts p hp)
      (fun p hp hcon => absurd hcon (List.not_mem_nil p.1))
      (by rw [hlen]; simp)
      List.nodup_nil
      (fun v hv => absurd hv (List.not_mem_nil v))
    obtain ⟨hl, hnd2, hmem⟩ := hmain
    refine ⟨by rw [hl, hlen], hnd2, ?_⟩
    have hsub : runRoundRobin s ts ⊆ s.accounts.map Prod.fst :=
      fun x hx => (hmem x hx).1
    have hfs : (runRoundRobin s ts).toFinset = (s.accounts.map Prod.fst).toFinset := by
      refine Finset.eq_of_subset_of_card_le ?_ ?_
      · intro x hx
        rw [List.mem_toFinset] at hx ⊢
        exact hsub hx
      · rw [List.toFinset_card_of_nodup hnd2, List.toFinset_card_of_nodup hnd,
          hl, hlen, List.length_map]
    intro k hk
    have : k ∈ (s.accounts.map Prod.fst).toFinset := List.mem_toFinset.mpr hk
    rw [← hfs] at this
    exact List.mem_toFinset.mp this

/-- an enabled never-used account with a valid token, for the C3
witness. -/
def rrAccount (idStr nm : Str) : Account :=
  { id := idStr
    name := nm
    credentials := sampleCreds
    createdAt := 0
    lastUsed := none
    requestCount := 0
    enabled := true }

/-- a three-account store of enabled, valid, never-used accounts. -/
def rrStore : AccountStore :=
  { accounts := [("x".data, rrAccount ("x".data) ("X".data)),
      ("y".data, rrAccount ("y".data) ("Y".data)),
      ("z".data, rrAccount ("z".data) ("Z".data))]
    defaultAccountId := some ("x".data) }

/-- C3 witness: three rounds of round-robin on the concrete three-account
store select three pairwise distinct accounts covering the whole store,
and the strategy aliases route to the same selector. -/
theorem roundRobin_strategy_properties_witness :
    (runRoundRobin rrStore [100, 200, 300]).length = 3
    ∧ (runRoundRobin rrStore [100, 200, 300]).Nodup
    ∧ ("y".data) ∈ runRoundRobin rrStore [100, 200, 300]
    ∧ getAccountForRequest rrStore 0 ("round-robin".data) =
        getNextAvailableAccount rrStore 0 := by
  obtain ⟨h1, h2, h3⟩ := roundRobin_strategy_properties.2.2.2.2 rrStore [100, 200, 300]
    (by decide) (by decide) (by decide) (by decide) (by decide) (by decide)
  refine ⟨by rw [h1]; rfl, h2, ?_, (roundRobin_strategy_properties.1 rrStore 0).1⟩
  exact h3 ("y".data) (by decide)

end QwenProxy
